import Mathlib

/-!
Shallow embedding of the password tool (`src/main.py`): policy data model,
character-pool construction, password generation with an explicit random
tape, and the strength estimator. Randomness is modelled by passing each
`secrets` draw as an explicit natural number taken in order from a single
tape `Nat → Nat`, mirroring that all draws come from one source.
-/

namespace PasswordTool

/-- `string.ascii_lowercase`: the 26 ASCII lowercase letters a-z. -/
def ascii_lowercase : List Char := "abcdefghijklmnopqrstuvwxyz".toList

/-- `string.ascii_uppercase`: the 26 ASCII uppercase letters A-Z. -/
def ascii_uppercase : List Char := "ABCDEFGHIJKLMNOPQRSTUVWXYZ".toList

/-- `string.digits`: the 10 ASCII digits 0-9. -/
def ascii_digits : List Char := "0123456789".toList

/-- The module constant `SYMBOLS` from `src/main.py` line 17. -/
def SYMBOLS : List Char := "!@#$%^&*()-_=+[]\x7b\x7d;:,.<>?/".toList

/-- The `PasswordPolicy` dataclass. `length` is a Python int, so `Int`. -/
structure PasswordPolicy where
  length : Int
  use_lowercase : Bool
  use_uppercase : Bool
  use_digits : Bool
  use_symbols : Bool
deriving DecidableEq, Repr

/-- The two failure messages of `PasswordGeneratorError`, as error kinds
(the spec names them `NoCategorySelected` and `InvalidLength`). -/
inductive PasswordGeneratorError where
  | NoCategorySelected
  | InvalidLength
deriving DecidableEq, Repr

/-- The list `pool_parts` built by the four `if` statements of
`build_character_pool` (lines 41-50), in source order. -/
def pool_parts (policy : PasswordPolicy) : List (List Char) :=
  (if policy.use_lowercase then [ascii_lowercase] else []) ++
  (if policy.use_uppercase then [ascii_uppercase] else []) ++
  (if policy.use_digits then [ascii_digits] else []) ++
  (if policy.use_symbols then [SYMBOLS] else [])

/-- `build_character_pool` (lines 34-58): raise if `pool_parts` is empty,
otherwise join the parts. -/
def build_character_pool (policy : PasswordPolicy) :
    Except PasswordGeneratorError (List Char) :=
  if (pool_parts policy).isEmpty then .error .NoCategorySelected
  else .ok (pool_parts policy).flatten

/-- `secrets.choice s` with the draw made explicit: a uniform draw `k` in
`[0, s.length)` picks `s[k]`. Totalised by reducing `k` mod `s.length`;
every use in the program has `s` nonempty, so the default is never read. -/
def choice (s : List Char) (k : Nat) : Char := s.getD (k % s.length) 'a'

/-- The Python parallel assignment
`password_chars[i], password_chars[j] = password_chars[j], password_chars[i]`
(line 91): both right-hand values are read from the original list. -/
def swap (l : List Char) (i j : Nat) : List Char :=
  (l.set i (l.getD j 'a')).set j (l.getD i 'a')

/-- The shuffle loop of `generate_password` (lines 89-91):
`for i in range(len(l)): j = randbelow(len(l)); swap i j`, with the draw
for step `i` supplied by `d i` (reduced mod the length as `randbelow` is). -/
def shuffle (l : List Char) (d : Nat → Nat) : List Char :=
  (List.range l.length).foldl (fun acc i => swap acc i (d i % acc.length)) l

/-- The seeding block of `generate_password` (lines 75-82): one
`secrets.choice` from each enabled alphabet, in the fixed source order;
draw `i` of the tape feeds the `i`-th enabled category. -/
def seed_chars (policy : PasswordPolicy) (tape : Nat → Nat) : List Char :=
  (List.range (pool_parts policy).length).map
    (fun i => choice ((pool_parts policy).getD i []) (tape i))

/-- Number of iterations of the fill loop (lines 85-86): the loop appends
one character per iteration until the working length reaches
`policy.length`, so it runs `max 0 (length - seeded)` times. -/
def fill_count (policy : PasswordPolicy) : Nat :=
  (policy.length - ((pool_parts policy).length : Int)).toNat

/-- `generate_password` (lines 61-93) with the random tape explicit: the
draws are consumed in order, seeds first, then fills, then shuffle
indices. -/
def generate_password (policy : PasswordPolicy) (tape : Nat → Nat) :
    Except PasswordGeneratorError (List Char) :=
  if policy.length ≤ 0 then .error .InvalidLength
  else
    match build_character_pool policy with
    | .error e => .error e
    | .ok pool =>
      let seeds := seed_chars policy tape
      let fills := (List.range (fill_count policy)).map
        (fun i => choice pool (tape (seeds.length + i)))
      let work := seeds ++ fills
      .ok (shuffle work (fun i => tape (seeds.length + fill_count policy + i)))

/-- Python `str.islower()` on one character is Unicode-aware (any character
with the Unicode Lowercase property counts), not restricted to ASCII.
Modelled as ASCII a-z plus the Latin-1 fragment of the Unicode lowercase
table, which covers every character this development evaluates it on. -/
def latin1_lower : List Char := "ªµºßàáâãäåæçèéêëìíîïðñòóôõöøùúûüýþÿ".toList

/-- Model of Python `c.islower()` for a single character. -/
def pyIsLower (c : Char) : Bool := ('a' ≤ c && c ≤ 'z') || latin1_lower.contains c

/-- The Latin-1 fragment of the Unicode uppercase table. -/
def latin1_upper : List Char := "ÀÁÂÃÄÅÆÇÈÉÊËÌÍÎÏÐÑÒÓÔÕÖØÙÚÛÜÝÞ".toList

/-- Model of Python `c.isupper()` for a single character. -/
def pyIsUpper (c : Char) : Bool := ('A' ≤ c && c ≤ 'Z') || latin1_upper.contains c

/-- Python `str.isdigit()` also accepts non-ASCII digit characters such as
the Latin-1 superscripts; modelled as ASCII 0-9 plus that fragment. -/
def superscript_digits : List Char := "¹²³".toList

/-- Model of Python `c.isdigit()` for a single character. -/
def pyIsDigit (c : Char) : Bool := ('0' ≤ c && c ≤ '9') || superscript_digits.contains c

/-- `variety_score` (lines 105-110): how many of the four `has_*` flags
hold. The first three use Python Unicode classification; only the symbol
check is membership in the fixed `SYMBOLS` set. -/
def variety_score (password : List Char) : Nat :=
  (if password.any pyIsLower then 1 else 0) +
  (if password.any pyIsUpper then 1 else 0) +
  (if password.any pyIsDigit then 1 else 0) +
  (if password.any (fun c => SYMBOLS.contains c) then 1 else 0)

/-- `total_score` (line 113): length plus twice the variety score. -/
def total_score (password : List Char) : Nat :=
  password.length + 2 * variety_score password

/-- `evaluate_strength` (lines 96-122): thresholds checked by
strict-less-than in ascending order. -/
def evaluate_strength (password : List Char) : String :=
  if total_score password < 10 then "Weak"
  else if total_score password < 18 then "Moderate"
  else if total_score password < 26 then "Strong"
  else "Very Strong"

/-- The characters appended by the fill loop (lines 85-86): `fill_count`
draws from the full pool, consuming the tape entries right after the
seeds. -/
def fill_chars (policy : PasswordPolicy) (tape : Nat → Nat) : List Char :=
  (List.range (fill_count policy)).map
    (fun i => choice (pool_parts policy).flatten (tape ((seed_chars policy tape).length + i)))

/-- Number of enabled categories of a policy. -/
def enabledCount (policy : PasswordPolicy) : Nat := (pool_parts policy).length

/-- All draw vectors of length `k` with every entry below `n`: the
equally likely outcomes of `k` successive `randbelow(n)` calls. -/
def drawVectors (n : Nat) : Nat → List (List Nat)
  | 0 => [[]]
  | k + 1 => (drawVectors n k).flatMap (fun t => (List.range n).map (fun j => j :: t))

/-- Over all equally likely draw vectors for a sequence of length `n`
(entries below `n`, one per loop step), how many make the shuffle of `l`
produce `target`. -/
def shuffleCount (l target : List Char) : Nat :=
  ((drawVectors l.length l.length).filter
    (fun dv => shuffle l (fun i => dv.getD i 0) = target)).length

/-! ## Helper lemmas -/

lemma getD_cons_set_perm :
    ∀ (t : List Char) (j : Nat), j < t.length → ∀ a : Char,
      List.Perm (t.getD j 'a' :: t.set j a) (a :: t) := by
  intro t
  induction t with
  | nil => intro j h; simp at h
  | cons b t ih =>
    intro j h a
    cases j with
    | zero =>
      simp only [List.getD_cons_zero, List.set_cons_zero]
      exact List.Perm.swap a b t
    | succ k =>
      have hk : k < t.length := by simpa using h
      simp only [List.getD_cons_succ, List.set_cons_succ]
      have h1 : List.Perm (t.getD k 'a' :: b :: t.set k a) (b :: t.getD k 'a' :: t.set k a) :=
        List.Perm.swap b (t.getD k 'a') (t.set k a)
      have h2 : List.Perm (b :: t.getD k 'a' :: t.set k a) (b :: a :: t) :=
        List.Perm.cons b (ih k hk a)
      have h3 : List.Perm (b :: a :: t) (a :: b :: t) := List.Perm.swap a b t
      exact (h1.trans h2).trans h3

lemma swap_length (l : List Char) (i j : Nat) : (swap l i j).length = l.length := by
  simp [swap]

lemma swap_perm :
    ∀ (l : List Char) (i j : Nat), i < l.length → j < l.length →
      List.Perm (swap l i j) l := by
  intro l
  induction l with
  | nil => intro i j hi _; simp at hi
  | cons a t ih =>
    intro i j hi hj
    match i, j with
    | 0, 0 =>
      simp only [swap, List.getD_cons_zero, List.set_cons_zero]
      exact List.Perm.refl _
    | 0, k + 1 =>
      have hk : k < t.length := by simpa using hj
      simp only [swap, List.getD_cons_succ, List.getD_cons_zero,
        List.set_cons_zero, List.set_cons_succ]
      exact getD_cons_set_perm t k hk a
    | m + 1, 0 =>
      have hm : m < t.length := by simpa using hi
      simp only [swap, List.getD_cons_succ, List.getD_cons_zero,
        List.set_cons_zero, List.set_cons_succ]
      exact getD_cons_set_perm t m hm a
    | m + 1, k + 1 =>
      have hm : m < t.length := by simpa using hi
      have hk : k < t.length := by simpa using hj
      simp only [swap, List.getD_cons_succ, List.set_cons_succ]
      exact List.Perm.cons a (ih m k hm hk)

lemma foldl_swap_perm (d : Nat → Nat) :
    ∀ (r : List Nat) (acc : List Char), (∀ i ∈ r, i < acc.length) →
      List.Perm (r.foldl (fun a i => swap a i (d i % a.length)) acc) acc := by
  intro r
  induction r with
  | nil => intro acc _; exact List.Perm.refl _
  | cons x xs ih =>
    intro acc h
    have hx : x < acc.length := h x (List.mem_cons_self x xs)
    have hpos : 0 < acc.length := Nat.lt_of_le_of_lt (Nat.zero_le x) hx
    have h1 : List.Perm (swap acc x (d x % acc.length)) acc :=
      swap_perm acc x (d x % acc.length) hx (Nat.mod_lt _ hpos)
    have h2 := ih (swap acc x (d x % acc.length))
      (fun i hi => by rw [swap_length]; exact h i (List.mem_cons_of_mem x hi))
    rw [List.foldl_cons]
    exact h2.trans h1

lemma shuffle_perm (l : List Char) (d : Nat → Nat) : List.Perm (shuffle l d) l :=
  foldl_swap_perm d (List.range l.length) l (fun _ hi => List.mem_range.mp hi)

lemma shuffle_length (l : List Char) (d : Nat → Nat) : (shuffle l d).length = l.length :=
  (shuffle_perm l d).length_eq

lemma build_ok (policy : PasswordPolicy) (h : pool_parts policy ≠ []) :
    build_character_pool policy = .ok (pool_parts policy).flatten := by
  rw [build_character_pool, if_neg]
  simp [h]

lemma generate_password_eq (policy : PasswordPolicy) (tape : Nat → Nat)
    (hlen : ¬ policy.length ≤ 0) (h : pool_parts policy ≠ []) :
    generate_password policy tape =
      .ok (shuffle (seed_chars policy tape ++ fill_chars policy tape)
        (fun i => tape ((seed_chars policy tape).length + fill_count policy + i))) := by
  rw [generate_password, if_neg hlen, build_ok policy h]
  rfl

lemma seed_chars_length (policy : PasswordPolicy) (tape : Nat → Nat) :
    (seed_chars policy tape).length = enabledCount policy := by
  simp [seed_chars, enabledCount]

lemma fill_chars_length (policy : PasswordPolicy) (tape : Nat → Nat) :
    (fill_chars policy tape).length = fill_count policy := by
  simp [fill_chars]

lemma mem_pool_parts {p : PasswordPolicy} {a : List Char} :
    a ∈ pool_parts p ↔
      ((p.use_lowercase = true ∧ a = ascii_lowercase) ∨
       (p.use_uppercase = true ∧ a = ascii_uppercase) ∨
       (p.use_digits = true ∧ a = ascii_digits) ∨
       (p.use_symbols = true ∧ a = SYMBOLS)) := by
  obtain ⟨len, lc, uc, dg, sy⟩ := p
  cases lc <;> cases uc <;> cases dg <;> cases sy <;>
    simp [pool_parts, or_assoc]

lemma alphabets_ne_nil :
    ascii_lowercase ≠ [] ∧ ascii_uppercase ≠ [] ∧ ascii_digits ≠ [] ∧ SYMBOLS ≠ [] := by
  decide

lemma pool_parts_ne_nil {p : PasswordPolicy} {a : List Char} (ha : a ∈ pool_parts p) :
    a ≠ [] := by
  rcases mem_pool_parts.mp ha with ⟨_, rfl⟩ | ⟨_, rfl⟩ | ⟨_, rfl⟩ | ⟨_, rfl⟩
  · exact alphabets_ne_nil.1
  · exact alphabets_ne_nil.2.1
  · exact alphabets_ne_nil.2.2.1
  · exact alphabets_ne_nil.2.2.2

lemma pool_parts_ne_nil_of_count {p : PasswordPolicy} (h : 1 ≤ enabledCount p) :
    pool_parts p ≠ [] := by
  intro hnil
  rw [enabledCount, hnil] at h
  simp at h

lemma choice_mem {s : List Char} (h : s ≠ []) (k : Nat) : choice s k ∈ s := by
  have hlen : 0 < s.length := List.length_pos.mpr h
  have hlt : k % s.length < s.length := Nat.mod_lt _ hlen
  rw [choice, List.getD_eq_getElem s 'a' hlt]
  exact List.getElem_mem hlt

lemma seed_covers {p : PasswordPolicy} (tape : Nat → Nat) {a : List Char}
    (ha : a ∈ pool_parts p) : ∃ c ∈ seed_chars p tape, c ∈ a := by
  obtain ⟨i, hi, hget⟩ := List.getElem_of_mem ha
  refine ⟨choice ((pool_parts p).getD i []) (tape i), ?_, ?_⟩
  · exact List.mem_map.mpr ⟨i, List.mem_range.mpr hi, rfl⟩
  · rw [List.getD_eq_getElem (pool_parts p) [] hi, hget]
    exact choice_mem (pool_parts_ne_nil ha) (tape i)

lemma flatten_ne_nil {p : PasswordPolicy} (h : pool_parts p ≠ []) :
    (pool_parts p).flatten ≠ [] := by
  obtain ⟨a, ha⟩ := List.exists_mem_of_ne_nil (pool_parts p) h
  obtain ⟨c, hc⟩ := List.exists_mem_of_ne_nil a (pool_parts_ne_nil ha)
  exact List.ne_nil_of_mem (List.mem_flatten.mpr ⟨a, ha, hc⟩)

lemma work_mem {p : PasswordPolicy} {tape : Nat → Nat} {c : Char}
    (h : pool_parts p ≠ []) (hc : c ∈ seed_chars p tape ++ fill_chars p tape) :
    ∃ a ∈ pool_parts p, c ∈ a := by
  rcases List.mem_append.mp hc with hs | hf
  · obtain ⟨i, hi, rfl⟩ := List.mem_map.mp hs
    have hir : i < (pool_parts p).length := List.mem_range.mp hi
    have hmem : (pool_parts p).getD i [] ∈ pool_parts p := by
      rw [List.getD_eq_getElem (pool_parts p) [] hir]
      exact List.getElem_mem hir
    exact ⟨(pool_parts p).getD i [], hmem, choice_mem (pool_parts_ne_nil hmem) _⟩
  · obtain ⟨i, _, rfl⟩ := List.mem_map.mp hf
    have : choice (pool_parts p).flatten (tape ((seed_chars p tape).length + i)) ∈
        (pool_parts p).flatten := choice_mem (flatten_ne_nil h) _
    exact List.mem_flatten.mp this

lemma alphabets_disjoint :
    (∀ c ∈ ascii_lowercase, c ∉ ascii_uppercase ∧ c ∉ ascii_digits ∧ c ∉ SYMBOLS) ∧
    (∀ c ∈ ascii_uppercase, c ∉ ascii_lowercase ∧ c ∉ ascii_digits ∧ c ∉ SYMBOLS) ∧
    (∀ c ∈ ascii_digits, c ∉ ascii_lowercase ∧ c ∉ ascii_uppercase ∧ c ∉ SYMBOLS) ∧
    (∀ c ∈ SYMBOLS, c ∉ ascii_lowercase ∧ c ∉ ascii_uppercase ∧ c ∉ ascii_digits) := by
  decide

lemma lower_char_facts :
    ∀ c ∈ ascii_lowercase, pyIsLower c = true ∧ pyIsUpper c = false ∧
      pyIsDigit c = false ∧ SYMBOLS.contains c = false := by
  decide

lemma total_score_all_lower {pw : List Char} (h8 : pw.length = 8)
    (hlow : ∀ c ∈ pw, c ∈ ascii_lowercase) : total_score pw = 10 := by
  have hne : pw ≠ [] := by
    intro h
    rw [h] at h8
    simp at h8
  obtain ⟨c0, hc0⟩ := List.exists_mem_of_ne_nil pw hne
  have hl : pw.any pyIsLower = true :=
    List.any_eq_true.mpr ⟨c0, hc0, (lower_char_facts c0 (hlow c0 hc0)).1⟩
  have hu : pw.any pyIsUpper = false :=
    List.any_eq_false.mpr (fun c hc => by
      simp [(lower_char_facts c (hlow c hc)).2.1])
  have hd : pw.any pyIsDigit = false :=
    List.any_eq_false.mpr (fun c hc => by
      simp [(lower_char_facts c (hlow c hc)).2.2.1])
  have hs : pw.any (fun c => SYMBOLS.contains c) = false :=
    List.any_eq_false.mpr (fun c hc => by
      simpa using (lower_char_facts c (hlow c hc)).2.2.2)
  rw [total_score, variety_score, hl, hu, hd, hs, h8]
  norm_num

/-! ## Claim theorems -/

/-- C1: the shuffle step of generate_password is NOT an unbiased
permutation. For the 3-element working sequence abc there are 27 equally
likely draw vectors (each of the three randbelow(3) calls returning a
value below 3), yet the arrangement abc results from exactly 4 of them
while acb results from exactly 5, so the permutations are not produced
with equal probability. This refutes the claim as stated and shows the
swap-with-random-index loop of lines 89-91 is biased, unlike the
Fisher-Yates shuffle the spec requires. -/
theorem C1_shuffle_biased :
    (drawVectors 3 3).length = 27 ∧
    shuffleCount ['a', 'b', 'c'] ['a', 'b', 'c'] = 4 ∧
    shuffleCount ['a', 'b', 'c'] ['a', 'c', 'b'] = 5 ∧
    shuffleCount ['a', 'b', 'c'] ['a', 'b', 'c'] ≠
      shuffleCount ['a', 'b', 'c'] ['a', 'c', 'b'] := by
  decide

/-- C4: build_character_pool fails with NoCategorySelected exactly when
all four policy flags are false, and succeeds with a non-empty pool as
soon as at least one flag is true. -/
theorem C4_build_pool_error (policy : PasswordPolicy) :
    (build_character_pool policy = .error .NoCategorySelected ↔
      (policy.use_lowercase = false ∧ policy.use_uppercase = false ∧
       policy.use_digits = false ∧ policy.use_symbols = false)) ∧
    ((policy.use_lowercase = true ∨ policy.use_uppercase = true ∨
      policy.use_digits = true ∨ policy.use_symbols = true) →
      ∃ pool, build_character_pool policy = .ok pool ∧ pool ≠ []) := by
  constructor
  · obtain ⟨len, lc, uc, dg, sy⟩ := policy
    cases lc <;> cases uc <;> cases dg <;> cases sy <;>
      simp [build_character_pool, pool_parts]
  · intro hor
    have hmem : ∃ a, a ∈ pool_parts policy := by
      rcases hor with h | h | h | h
      exacts [⟨ascii_lowercase, mem_pool_parts.mpr (Or.inl ⟨h, rfl⟩)⟩,
        ⟨ascii_uppercase, mem_pool_parts.mpr (Or.inr (Or.inl ⟨h, rfl⟩))⟩,
        ⟨ascii_digits, mem_pool_parts.mpr (Or.inr (Or.inr (Or.inl ⟨h, rfl⟩)))⟩,
        ⟨SYMBOLS, mem_pool_parts.mpr (Or.inr (Or.inr (Or.inr ⟨h, rfl⟩)))⟩]
    obtain ⟨a, ha⟩ := hmem
    have hne : pool_parts policy ≠ [] := List.ne_nil_of_mem ha
    exact ⟨(pool_parts policy).flatten, build_ok policy hne, flatten_ne_nil hne⟩

/-- C4 witness: a policy with only lowercase enabled yields a non-empty
pool. -/
theorem C4_build_pool_error_witness :
    ∃ pool, build_character_pool ⟨12, true, false, false, false⟩ = .ok pool ∧ pool ≠ [] :=
  (C4_build_pool_error ⟨12, true, false, false, false⟩).2 (Or.inl rfl)

/-- C5: for every policy with non-positive length, generate_password
fails with InvalidLength, and since the length test is the first step it
does so whatever the category flags are (even with none enabled). -/
theorem C5_invalid_length (policy : PasswordPolicy) (tape : Nat → Nat)
    (h : policy.length ≤ 0) :
    generate_password policy tape = .error .InvalidLength := by
  rw [generate_password, if_pos h]

/-- C5 witness: length 0 with no category enabled is still reported as
InvalidLength. -/
theorem C5_invalid_length_witness :
    generate_password ⟨0, false, false, false, false⟩ (fun k => k) = .error .InvalidLength :=
  C5_invalid_length ⟨0, false, false, false, false⟩ (fun k => k) (by decide)

/-- C6: evaluate_strength returns the label determined by
total_score = length + 2 * variety, with strict-less-than thresholds
10, 18, 26 checked in ascending order; and a password of 8 lowercase
letters only scores exactly 10 and evaluates to Moderate. -/
theorem C6_evaluate_thresholds (pw : List Char) :
    ((evaluate_strength pw = "Weak" ↔ total_score pw < 10) ∧
     (evaluate_strength pw = "Moderate" ↔ (10 ≤ total_score pw ∧ total_score pw < 18)) ∧
     (evaluate_strength pw = "Strong" ↔ (18 ≤ total_score pw ∧ total_score pw < 26)) ∧
     (evaluate_strength pw = "Very Strong" ↔ 26 ≤ total_score pw)) ∧
    (pw.length = 8 → (∀ c ∈ pw, c ∈ ascii_lowercase) →
      total_score pw = 10 ∧ evaluate_strength pw = "Moderate") := by
  have e : evaluate_strength pw =
      if total_score pw < 10 then "Weak"
      else if total_score pw < 18 then "Moderate"
      else if total_score pw < 26 then "Strong"
      else "Very Strong" := rfl
  refine ⟨⟨?_, ?_, ?_, ?_⟩, fun h8 hlow => ?_⟩ <;> rw [e]
  · split_ifs with h1 h2 h3 <;> simp <;> omega
  · split_ifs with h1 h2 h3 <;> simp <;> omega
  · split_ifs with h1 h2 h3 <;> simp <;> omega
  · split_ifs with h1 h2 h3 <;> simp <;> omega
  · have h10 := total_score_all_lower h8 hlow
    refine ⟨h10, ?_⟩
    rw [if_neg (by omega), if_pos (by omega)]

/-- C6 witness: the concrete password abcdefgh scores 10 and evaluates
to Moderate. -/
theorem C6_evaluate_thresholds_witness :
    total_score "abcdefgh".toList = 10 ∧
      evaluate_strength "abcdefgh".toList = "Moderate" :=
  (C6_evaluate_thresholds "abcdefgh".toList).2 (by decide) (by decide)

/-- C7 counterexample: the symbol alphabet is the claimed string but it
does not have 27 characters, so the claim as stated is false. -/
theorem C7_symbols_counterexample :
    ¬ (SYMBOLS = "!@#$%^&*()-_=+[]\x7b\x7d;:,.<>?/".toList ∧ SYMBOLS.length = 27) := by
  decide

/-- C7 amended: the symbol alphabet is exactly the string
!@#$%^&*()-_=+[]\x7b\x7d;:,.<>?/ in this exact order, and it has 26
characters. -/
theorem C7_symbols_amended :
    SYMBOLS = "!@#$%^&*()-_=+[]\x7b\x7d;:,.<>?/".toList ∧ SYMBOLS.length = 26 := by
  exact ⟨rfl, by decide⟩

/-- C2: for every policy with at least one enabled category and length at
least the enabled-category count, generate_password succeeds (for every
random tape) and the password has exactly policy.length characters. -/
theorem C2_generate_length (policy : PasswordPolicy) (tape : Nat → Nat)
    (h1 : 1 ≤ enabledCount policy) (h2 : (enabledCount policy : Int) ≤ policy.length) :
    ∃ pw, generate_password policy tape = .ok pw ∧ (pw.length : Int) = policy.length := by
  have hne : pool_parts policy ≠ [] := pool_parts_ne_nil_of_count h1
  have hlen : ¬ policy.length ≤ 0 := by omega
  refine ⟨_, generate_password_eq policy tape hlen hne, ?_⟩
  rw [(shuffle_perm _ _).length_eq, List.length_append, seed_chars_length,
    fill_chars_length, fill_count]
  simp only [enabledCount] at h1 h2 ⊢
  omega

/-- C2 witness: the default all-categories policy of length 12 yields a
12-character password on the identity tape. -/
theorem C2_generate_length_witness :
    ∃ pw, generate_password ⟨12, true, true, true, true⟩ (fun k => k) = .ok pw ∧
      (pw.length : Int) = 12 :=
  C2_generate_length ⟨12, true, true, true, true⟩ (fun k => k) (by decide) (by decide)

/-- C3: for every valid policy, a returned password contains at least one
character from each enabled alphabet and no character from any disabled
alphabet. -/
theorem C3_category_coverage (policy : PasswordPolicy) (tape : Nat → Nat) (pw : List Char)
    (h1 : 1 ≤ enabledCount policy) (h2 : (enabledCount policy : Int) ≤ policy.length)
    (hgen : generate_password policy tape = .ok pw) :
    (policy.use_lowercase = true → ∃ c ∈ pw, c ∈ ascii_lowercase) ∧
    (policy.use_uppercase = true → ∃ c ∈ pw, c ∈ ascii_uppercase) ∧
    (policy.use_digits = true → ∃ c ∈ pw, c ∈ ascii_digits) ∧
    (policy.use_symbols = true → ∃ c ∈ pw, c ∈ SYMBOLS) ∧
    (policy.use_lowercase = false → ∀ c ∈ pw, c ∉ ascii_lowercase) ∧
    (policy.use_uppercase = false → ∀ c ∈ pw, c ∉ ascii_uppercase) ∧
    (policy.use_digits = false → ∀ c ∈ pw, c ∉ ascii_digits) ∧
    (policy.use_symbols = false → ∀ c ∈ pw, c ∉ SYMBOLS) := by
  have hne : pool_parts policy ≠ [] := pool_parts_ne_nil_of_count h1
  have hlen : ¬ policy.length ≤ 0 := by omega
  rw [generate_password_eq policy tape hlen hne] at hgen
  injection hgen with hpw
  subst hpw
  have hperm := shuffle_perm (seed_chars policy tape ++ fill_chars policy tape)
    (fun i => tape ((seed_chars policy tape).length + fill_count policy + i))
  have enabledClause : ∀ {A : List Char}, A ∈ pool_parts policy →
      ∃ c ∈ shuffle (seed_chars policy tape ++ fill_chars policy tape)
        (fun i => tape ((seed_chars policy tape).length + fill_count policy + i)), c ∈ A := by
    intro A hA
    obtain ⟨c, hcs, hcA⟩ := seed_covers tape hA
    exact ⟨c, hperm.mem_iff.mpr (List.mem_append.mpr (Or.inl hcs)), hcA⟩
  have sourced : ∀ c ∈ shuffle (seed_chars policy tape ++ fill_chars policy tape)
      (fun i => tape ((seed_chars policy tape).length + fill_count policy + i)),
      ∃ a ∈ pool_parts policy, c ∈ a :=
    fun c hc => work_mem hne (hperm.mem_iff.mp hc)
  refine ⟨fun hf => enabledClause (mem_pool_parts.mpr (Or.inl ⟨hf, rfl⟩)),
    fun hf => enabledClause (mem_pool_parts.mpr (Or.inr (Or.inl ⟨hf, rfl⟩))),
    fun hf => enabledClause (mem_pool_parts.mpr (Or.inr (Or.inr (Or.inl ⟨hf, rfl⟩)))),
    fun hf => enabledClause (mem_pool_parts.mpr (Or.inr (Or.inr (Or.inr ⟨hf, rfl⟩)))),
    fun hf c hc hcl => ?_, fun hf c hc hcl => ?_,
    fun hf c hc hcl => ?_, fun hf c hc hcl => ?_⟩
  · obtain ⟨a, ha, hca⟩ := sourced c hc
    rcases mem_pool_parts.mp ha with ⟨ht, rfl⟩ | ⟨ht, rfl⟩ | ⟨ht, rfl⟩ | ⟨ht, rfl⟩
    · simp [hf] at ht
    · exact (alphabets_disjoint.2.1 c hca).1 hcl
    · exact (alphabets_disjoint.2.2.1 c hca).1 hcl
    · exact (alphabets_disjoint.2.2.2 c hca).1 hcl
  · obtain ⟨a, ha, hca⟩ := sourced c hc
    rcases mem_pool_parts.mp ha with ⟨ht, rfl⟩ | ⟨ht, rfl⟩ | ⟨ht, rfl⟩ | ⟨ht, rfl⟩
    · exact (alphabets_disjoint.1 c hca).1 hcl
    · simp [hf] at ht
    · exact (alphabets_disjoint.2.2.1 c hca).2.1 hcl
    · exact (alphabets_disjoint.2.2.2 c hca).2.1 hcl
  · obtain ⟨a, ha, hca⟩ := sourced c hc
    rcases mem_pool_parts.mp ha with ⟨ht, rfl⟩ | ⟨ht, rfl⟩ | ⟨ht, rfl⟩ | ⟨ht, rfl⟩
    · exact (alphabets_disjoint.1 c hca).2.1 hcl
    · exact (alphabets_disjoint.2.1 c hca).2.1 hcl
    · simp [hf] at ht
    · exact (alphabets_disjoint.2.2.2 c hca).2.2 hcl
  · obtain ⟨a, ha, hca⟩ := sourced c hc
    rcases mem_pool_parts.mp ha with ⟨ht, rfl⟩ | ⟨ht, rfl⟩ | ⟨ht, rfl⟩ | ⟨ht, rfl⟩
    · exact (alphabets_disjoint.1 c hca).2.2 hcl
    · exact (alphabets_disjoint.2.1 c hca).2.2 hcl
    · exact (alphabets_disjoint.2.2.1 c hca).2.2 hcl
    · simp [hf] at ht

/-- C3 witness: with all categories enabled and length 4, the password
generated on the all-zero tape contains a lowercase letter. -/
theorem C3_category_coverage_witness :
    ∃ c ∈ (['!', 'a', 'A', '0'] : List Char), c ∈ ascii_lowercase :=
  (C3_category_coverage ⟨4, true, true, true, true⟩ (fun _ => 0) ['!', 'a', 'A', '0']
    (by decide) (by decide) rfl).1 rfl

/-- C8: when 1 <= length < enabled-category count, generate_password does
not fail and does not truncate: the password has exactly one character
per enabled category, strictly more than requested. -/
theorem C8_overshoot (policy : PasswordPolicy) (tape : Nat → Nat)
    (h1 : 1 ≤ policy.length) (h2 : policy.length < (enabledCount policy : Int)) :
    ∃ pw, generate_password policy tape = .ok pw ∧
      pw.length = enabledCount policy ∧ policy.length < (pw.length : Int) := by
  have hcount : 1 ≤ enabledCount policy := by omega
  have hne : pool_parts policy ≠ [] := pool_parts_ne_nil_of_count hcount
  have hlen : ¬ policy.length ≤ 0 := by omega
  refine ⟨_, generate_password_eq policy tape hlen hne, ?_⟩
  have hfc : fill_count policy = 0 := by
    rw [fill_count]
    simp only [enabledCount] at h2
    omega
  have hl : (shuffle (seed_chars policy tape ++ fill_chars policy tape)
      (fun i => tape ((seed_chars policy tape).length + fill_count policy + i))).length =
      enabledCount policy := by
    rw [(shuffle_perm _ _).length_eq, List.length_append, seed_chars_length,
      fill_chars_length, hfc, Nat.add_zero]
  exact ⟨hl, by rw [hl]; omega⟩

/-- C8 witness: all four categories with requested length 1 yield a
4-character password. -/
theorem C8_overshoot_witness :
    ∃ pw, generate_password ⟨1, true, true, true, true⟩ (fun k => k) = .ok pw ∧
      pw.length = enabledCount ⟨1, true, true, true, true⟩ ∧
      (1 : Int) < (pw.length : Int) :=
  C8_overshoot ⟨1, true, true, true, true⟩ (fun k => k) (by decide) (by decide)

/-- C9: a successfully built pool is the concatenation of the enabled
alphabets in the order lowercase, uppercase, digits, symbols; it is
non-empty (equivalently, some category is enabled); the four alphabets
are pairwise disjoint; each alphabet has distinct characters; hence the
pool has no duplicate characters. -/
theorem C9_pool_invariants (policy : PasswordPolicy) (pool : List Char)
    (h : build_character_pool policy = .ok pool) :
    pool = (if policy.use_lowercase then ascii_lowercase else []) ++
           (if policy.use_uppercase then ascii_uppercase else []) ++
           (if policy.use_digits then ascii_digits else []) ++
           (if policy.use_symbols then SYMBOLS else []) ∧
    (pool ≠ [] ↔ (policy.use_lowercase || policy.use_uppercase ||
      policy.use_digits || policy.use_symbols) = true) ∧
    (∀ c ∈ ascii_lowercase, c ∉ ascii_uppercase ∧ c ∉ ascii_digits ∧ c ∉ SYMBOLS) ∧
    (∀ c ∈ ascii_uppercase, c ∉ ascii_digits ∧ c ∉ SYMBOLS) ∧
    (∀ c ∈ ascii_digits, c ∉ SYMBOLS) ∧
    ascii_lowercase.Nodup ∧ ascii_uppercase.Nodup ∧
    ascii_digits.Nodup ∧ SYMBOLS.Nodup ∧ pool.Nodup := by
  obtain ⟨len, lc, uc, dg, sy⟩ := policy
  cases lc <;> cases uc <;> cases dg <;> cases sy <;>
    simp [build_character_pool, pool_parts] at h <;>
    (subst h; exact of_decide_eq_true rfl)

/-- C9 witness: with all categories enabled the pool is the full
concatenation of the four alphabets. -/
theorem C9_pool_invariants_witness :
    (pool_parts ⟨12, true, true, true, true⟩).flatten =
      ascii_lowercase ++ ascii_uppercase ++ ascii_digits ++ SYMBOLS :=
  (C9_pool_invariants ⟨12, true, true, true, true⟩
    (pool_parts ⟨12, true, true, true, true⟩).flatten rfl).1

/-- C10: the variety predicates of evaluate_strength are not restricted
to the four pool alphabets: the single-character password é (a lowercase
letter under Python Unicode classification) lies in none of the four
alphabets, yet the variety score is positive; only the symbol check,
which is membership in the fixed SYMBOLS set, rejects it. -/
theorem C10_unicode_variety :
    ('é' ∉ ascii_lowercase ∧ 'é' ∉ ascii_uppercase ∧
     'é' ∉ ascii_digits ∧ 'é' ∉ SYMBOLS) ∧
    0 < variety_score ['é'] ∧
    (['é'].any (fun c => SYMBOLS.contains c)) = false := by
  decide

end PasswordTool
